import Mathlib

/-!
Verification development for the etrade-dashboard transaction engine.

This file gives a shallow embedding, in Lean 4, of the core data model and
operations of the repository: the persistence layer (`database.py` for the
SQLite backend and `database_pg.py` for the PostgreSQL backend), the CSV
parser and classifier (`csv_parser.py`), and the balance projector
(`projections.py`).  Amounts (SQL `REAL` / Python `float`) are embedded as
exact rationals `ℚ`; SQL text comparison (BINARY collation / byte order on
the ASCII data used throughout) is embedded as lexicographic comparison of
character codes; SQL `NULL` and Python `None` are embedded as `Option`.
Wall-clock values (`imported_at`, `created_at`, the calendar labels of the
projector, which call `datetime.now()`) carry no claim-relevant content and
are embedded as opaque optional fields or plain month indices.
-/

/-! ## String primitives

SQLite `LIKE` (case-insensitive on ASCII), PostgreSQL `ILIKE`, Python
`str.lower`/`in`, and SQL `MIN`/`MAX` on text are modelled with the
following executable character-list functions. -/

/-- Lower-case an ASCII letter, mirroring `str.lower` / SQL case folding on
the ASCII alphabet (codes 65–90 map to 97–122, all else unchanged). -/
def lowerChar (c : Char) : Char :=
  if 65 ≤ c.toNat ∧ c.toNat ≤ 90 then Char.ofNat (c.toNat + 32) else c

/-- Lower-case a string character-wise (ASCII fold). -/
def strLower (s : String) : String := String.mk (s.toList.map lowerChar)

/-- Does the second list occur at the head of the first list? -/
def leadsWith : List Char → List Char → Bool
  | [], _ => true
  | _ :: _, [] => false
  | a :: as, b :: bs => a == b && leadsWith as bs

/-- Does `needle` occur contiguously inside the list? -/
def occursIn (needle : List Char) : List Char → Bool
  | [] => needle.isEmpty
  | c :: cs => leadsWith needle (c :: cs) || occursIn needle cs

/-- Substring test: `needle` occurs contiguously in `hay` (the Python
`needle in hay` test and the SQL `hay LIKE '%needle%'` pattern for literal
keywords). -/
def containsSub (hay needle : String) : Bool := occursIn needle.toList hay.toList

/-- Case-insensitive substring test, mirroring SQLite `LIKE` /
PostgreSQL `ILIKE` on ASCII text. -/
def containsCI (hay needle : String) : Bool :=
  containsSub (strLower hay) (strLower needle)

/-- Lexicographic strict order on character-code lists: the order SQLite's
BINARY collation and PostgreSQL byte-order comparison induce on the ASCII
strings this system stores. -/
def ltCodes : List Char → List Char → Bool
  | [], [] => false
  | [], _ :: _ => true
  | _ :: _, [] => false
  | a :: as, b :: bs => a.toNat < b.toNat || (a.toNat == b.toNat && ltCodes as bs)

/-- Strict string comparison used for SQL `MIN`, `ORDER BY` and date-range
comparisons. -/
def strLtB (a b : String) : Bool := ltCodes a.toList b.toList

/-- Non-strict string comparison. -/
def strLeB (a b : String) : Bool := !(strLtB b a)

/-- SQL `MIN` over a column of text values: `none` on the empty set. -/
def sqlMinStr : List String → Option String
  | [] => none
  | x :: xs => some (xs.foldl (fun a b => if strLtB b a then b else a) x)

/-- SQL `MAX` over a column of text values: `none` on the empty set. -/
def sqlMaxStr : List String → Option String
  | [] => none
  | x :: xs => some (xs.foldl (fun a b => if strLtB a b then b else a) x)

/-- Strip leading and trailing whitespace from a character list
(Python `str.strip`). -/
def trimL (cs : List Char) : List Char :=
  ((cs.dropWhile Char.isWhitespace).reverse.dropWhile Char.isWhitespace).reverse

/-- Python `str.split()` with no argument: split on whitespace runs,
dropping empty pieces. -/
def splitWsAux : List Char → List Char → List String
  | [], acc => if acc.isEmpty then [] else [String.mk acc.reverse]
  | c :: cs, acc =>
      if c.isWhitespace then
        if acc.isEmpty then splitWsAux cs [] else String.mk acc.reverse :: splitWsAux cs []
      else splitWsAux cs (c :: acc)

/-- Python `description.split()` (whitespace tokenisation). -/
def pySplitWs (s : String) : List String := splitWsAux s.toList []

/-! ## Data model

`transactions` and `person_mappings` rows (`database.py` schema), the
normalized candidate records the parser emits, and the store state. -/

/-- A row of the `transactions` table.  `imported_at` defaults to the
wall-clock `CURRENT_TIMESTAMP`; its value is claim-irrelevant and carried
as an opaque optional string. -/
structure StoredTxn where
  id : Nat
  transaction_date : String
  description : String
  amount : ℚ
  balance : Option ℚ
  category : Option String
  source : Option String
  notes : Option String
  csv_hash : Option String
  imported_at : Option String
deriving Repr, DecidableEq

/-- A normalized candidate transaction as produced by the parser, before
an `id` is assigned (`_process_dataframe` output dict). -/
structure TxnCandidate where
  transaction_date : String
  description : String
  amount : ℚ
  balance : Option ℚ
  category : Option String
  source : Option String
  csv_hash : Option String
deriving Repr, DecidableEq

/-- A row of the `person_mappings` table (`created_at` elided as
claim-irrelevant wall-clock data). -/
structure PersonMapping where
  id : Nat
  person_name : String
  keyword : String
deriving Repr, DecidableEq

/-- The persistent store: the `transactions` table, its `AUTOINCREMENT`
counter, and the `person_mappings` table. -/
structure Store where
  txns : List StoredTxn
  nextId : Nat
  pms : List PersonMapping
deriving Repr, DecidableEq

/-- The `UNIQUE(transaction_date, description, amount)` conflict test: does
the store already hold a row with this candidate's key triple? -/
def hasTriple (rows : List StoredTxn) (c : TxnCandidate) : Bool :=
  rows.any (fun s =>
    s.transaction_date == c.transaction_date && s.description == c.description
      && s.amount == c.amount)

/-- Materialise a candidate as a stored row with a fresh id (`notes` starts
NULL; `imported_at` takes the current timestamp, opaque here). -/
def mkStored (id : Nat) (c : TxnCandidate) : StoredTxn :=
  ⟨id, c.transaction_date, c.description, c.amount, c.balance, c.category,
    c.source, none, c.csv_hash, none⟩

/-- One `INSERT` attempt: on a uniqueness conflict the store is unchanged
and the row reports failure (the caught `IntegrityError` /
`UniqueViolation` with savepoint rollback); otherwise the row is appended
with a fresh id. -/
def insertTxn (st : Store) (c : TxnCandidate) : Store × Bool :=
  if hasTriple st.txns c then (st, false)
  else ({ st with txns := st.txns ++ [mkStored st.nextId c], nextId := st.nextId + 1 }, true)

/-- TransactionDatabase.insert_transactions (both `database.py` and
`database_pg.py`): attempt each candidate in order, counting inserted and
skipped rows; a conflict is caught per row and the loop continues.
Returns the final store with the pair (inserted, skipped). -/
def insert_transactions (st : Store) (batch : List TxnCandidate) : Store × Nat × Nat :=
  batch.foldl
    (fun acc c =>
      ((insertTxn acc.1 c).1,
       if (insertTxn acc.1 c).2 then acc.2.1 + 1 else acc.2.1,
       if (insertTxn acc.1 c).2 then acc.2.2 else acc.2.2 + 1))
    (st, 0, 0)

/-- The allow-list of mutable fields of `update_transaction`. -/
def valid_fields : List String := ["category", "source", "notes", "description"]

/-- Apply one `SET field = value` assignment to a row; field names outside
the allow-list never reach this point but are mapped to the identity for
totality. -/
def setField (t : StoredTxn) (fv : String × String) : StoredTxn :=
  if fv.1 == "category" then { t with category := some fv.2 }
  else if fv.1 == "source" then { t with source := some fv.2 }
  else if fv.1 == "notes" then { t with notes := some fv.2 }
  else if fv.1 == "description" then { t with description := fv.2 }
  else t

/-- TransactionDatabase.update_transaction (both backends): filter the
keyword arguments to the allow-list; if none remain, do nothing; otherwise
apply the assignments to every row whose `id` matches (the primary key
makes that at most one row). -/
def update_transaction (st : Store) (tid : Nat) (kwargs : List (String × String)) : Store :=
  let updates := kwargs.filter (fun kv => valid_fields.contains kv.1)
  if updates.isEmpty then st
  else { st with txns := st.txns.map (fun t => if t.id == tid then updates.foldl setField t else t) }

/-! ## Aggregator: get_statistics -/

/-- Inclusive optional date-range test (`transaction_date >= start AND
transaction_date <= end`, each conjunct present only when the bound is). -/
def inDateRange (sd ed : Option String) (d : String) : Bool :=
  (match sd with | none => true | some s => strLeB s d)
    && (match ed with | none => true | some e => strLeB d e)

/-- The scalar row of the overall-statistics query.  The sum and average
columns are `Option ℚ` because SQL `SUM`/`AVG` return `NULL` on an empty
set; the PostgreSQL backend wraps them in `COALESCE`. -/
structure StatsRow where
  total_transactions : Nat
  total_deposits : Option ℚ
  total_withdrawals : Option ℚ
  net_change : Option ℚ
  avg_transaction : Option ℚ
  earliest_date : Option String
  latest_date : Option String
deriving Repr, DecidableEq

/-- SQL `SUM(f(row))` over a list of rows: `NULL` when there are no rows. -/
def sqlSumBy (f : StoredTxn → ℚ) (rows : List StoredTxn) : Option ℚ :=
  match rows with
  | [] => none
  | _ => some ((rows.map f).sum)

/-- TransactionDatabase.get_statistics in `database.py` (SQLite backend),
overall-statistics query: plain `SUM`/`AVG` with no `COALESCE`, so all
four aggregate columns are `NULL` on an empty result set. -/
def get_statistics (st : Store) (sd ed : Option String) : StatsRow :=
  let rows := st.txns.filter (fun t => inDateRange sd ed t.transaction_date)
  { total_transactions := rows.length
    total_deposits := sqlSumBy (fun t => if 0 < t.amount then t.amount else 0) rows
    total_withdrawals := sqlSumBy (fun t => if t.amount < 0 then t.amount else 0) rows
    net_change := sqlSumBy (fun t => t.amount) rows
    avg_transaction :=
      match rows with
      | [] => none
      | _ => some (((rows.map (fun t => t.amount)).sum) / rows.length)
    earliest_date := sqlMinStr (rows.map (fun t => t.transaction_date))
    latest_date := sqlMaxStr (rows.map (fun t => t.transaction_date)) }

/-- TransactionDatabase.get_statistics in `database_pg.py` (PostgreSQL
backend), overall-statistics query: identical except every aggregate is
wrapped in `COALESCE(..., 0)`, so the sums and average are `0`, never
`NULL`, on an empty result set. -/
def get_statistics_pg (st : Store) (sd ed : Option String) : StatsRow :=
  let rows := st.txns.filter (fun t => inDateRange sd ed t.transaction_date)
  { total_transactions := rows.length
    total_deposits :=
      some ((sqlSumBy (fun t => if 0 < t.amount then t.amount else 0) rows).getD 0)
    total_withdrawals :=
      some ((sqlSumBy (fun t => if t.amount < 0 then t.amount else 0) rows).getD 0)
    net_change := some ((sqlSumBy (fun t => t.amount) rows).getD 0)
    avg_transaction :=
      some ((match rows with
             | [] => none
             | _ => some (((rows.map (fun t => t.amount)).sum) / rows.length) : Option ℚ).getD 0)
    earliest_date := sqlMinStr (rows.map (fun t => t.transaction_date))
    latest_date := sqlMaxStr (rows.map (fun t => t.transaction_date)) }

/-! ## Attributor: get_contributions and get_contribution_statistics -/

/-- A row of the `get_contributions` result set. -/
structure ContributionRow where
  id : Nat
  transaction_date : String
  description : String
  amount : ℚ
  balance : Option ℚ
  person_name : String
deriving Repr, DecidableEq

/-- The person names of the mapping rows joined to a description by the
keyword `LIKE`/`ILIKE` condition, after the optional `pm.person_name = ?`
filter of `get_contributions` (the filter restricts the join rows, before
any grouping). -/
def matchNames (pms : List PersonMapping) (pf : Option String) (desc : String) : List String :=
  (pms.filter (fun pm =>
    (match pf with | none => true | some p => pm.person_name == p)
      && containsCI desc pm.keyword)).map (fun pm => pm.person_name)

/-- The single result row `get_contributions` produces for one stored
transaction: present exactly when the transaction is a deposit inside the
date range with at least one join row, carrying `MIN(pm.person_name)`
over those join rows (`GROUP BY t.id` in the SQLite query; equivalently
`DISTINCT ON (t.id) ... ORDER BY t.id, pm.person_name` in PostgreSQL). -/
def contribRowFor (pms : List PersonMapping) (sd ed pf : Option String)
    (t : StoredTxn) : Option ContributionRow :=
  if decide (0 < t.amount) && inDateRange sd ed t.transaction_date then
    (sqlMinStr (matchNames pms pf t.description)).map
      (fun p => ⟨t.id, t.transaction_date, t.description, t.amount, t.balance, p⟩)
  else none

/-- TransactionDatabase.get_contributions (both backends): deposits joined
to person mappings by case-insensitive keyword containment, one row per
matching transaction resolved to the minimal person name, ordered by
transaction date descending. -/
def get_contributions (st : Store) (sd ed pf : Option String) : List ContributionRow :=
  (st.txns.filterMap (contribRowFor st.pms sd ed pf)).mergeSort
    (fun a b => strLeB b.transaction_date a.transaction_date)

/-- The join rows of the contribution-statistics queries: one pair per
(deposit in range, mapping whose keyword matches its description) — the
raw `INNER JOIN` before grouping. -/
def contribPairs (st : Store) (sd ed : Option String) : List (StoredTxn × PersonMapping) :=
  st.txns.flatMap (fun t =>
    if decide (0 < t.amount) && inDateRange sd ed t.transaction_date then
      (st.pms.filter (fun pm => containsCI t.description pm.keyword)).map (fun pm => (t, pm))
    else [])

/-- The `SUM(t.amount)` column of the by-person aggregate of
`get_contribution_statistics`: the amounts of all join rows carrying this
person, summed with join-row multiplicity (one addend per matching
keyword, not per transaction). -/
def by_person_total (st : Store) (sd ed : Option String) (p : String) : ℚ :=
  (((contribPairs st sd ed).filter (fun x => x.2.person_name == p)).map
    (fun x => x.1.amount)).sum

/-- The `COUNT(DISTINCT t.id)` column of the by-person aggregate of
`get_contribution_statistics`: the number of distinct transaction ids
among the join rows carrying this person. -/
def by_person_count (st : Store) (sd ed : Option String) (p : String) : Nat :=
  ((((contribPairs st sd ed).filter (fun x => x.2.person_name == p)).map
    (fun x => x.1.id)).dedup).length

/-- The deposits in range whose description matches at least one keyword
owned by person `p` — the transactions the spec says person `p`'s
aggregate row accounts for. -/
def depositsMatching (st : Store) (sd ed : Option String) (p : String) : List StoredTxn :=
  st.txns.filter (fun t =>
    decide (0 < t.amount) && inDateRange sd ed t.transaction_date
      && st.pms.any (fun pm => pm.person_name == p && containsCI t.description pm.keyword))

/-- Modelled from the spec's words for comparison with `by_person_total`:
a per-person total that counts each matching deposit exactly once,
regardless of how many of the person's keywords match it. -/
def oncePerTxnTotal (st : Store) (sd ed : Option String) (p : String) : ℚ :=
  ((depositsMatching st sd ed p).map (fun t => t.amount)).sum

/-- How many of person `p`'s keywords match the description of `t` — the
join-row multiplicity of `t` in `p`'s aggregate row. -/
def matchMultiplicity (st : Store) (p : String) (t : StoredTxn) : Nat :=
  (st.pms.filter (fun pm => pm.person_name == p && containsCI t.description pm.keyword)).length

/-! ## Classifier (`csv_parser.py`) -/

/-- ETradeCSVParser._categorize_transaction: ordered keyword rules over
the lower-cased description; the deposit list is used when `0 < amount`
and the withdrawal list otherwise; the first matching rule wins. -/
def categorize_transaction (description : String) (amount : ℚ) : String :=
  let d := strLower description
  if 0 < amount then
    if ["direct dep", "deposit", "payroll", "salary"].any (fun k => containsSub d k) then "Income"
    else if ["transfer", "xfer"].any (fun k => containsSub d k) then "Transfer In"
    else if ["interest", "dividend"].any (fun k => containsSub d k) then "Interest/Dividend"
    else "Other Income"
  else
    if ["atm", "withdrawal"].any (fun k => containsSub d k) then "ATM/Cash"
    else if ["grocery", "supermarket", "food"].any (fun k => containsSub d k) then "Groceries"
    else if ["gas", "fuel", "shell", "exxon", "chevron"].any (fun k => containsSub d k) then "Gas/Fuel"
    else if ["restaurant", "cafe", "coffee"].any (fun k => containsSub d k) then "Dining"
    else if ["utility", "electric", "gas", "water"].any (fun k => containsSub d k) then "Utilities"
    else if ["transfer", "xfer"].any (fun k => containsSub d k) then "Transfer Out"
    else if ["check", "cheque"].any (fun k => containsSub d k) then "Check"
    else if ["fee", "charge"].any (fun k => containsSub d k) then "Fees"
    else "Other Expense"

/-- ETradeCSVParser._extract_source: for deposits, a keyword-driven source
label with a token-slice heuristic for payroll deposits
(`' '.join(parts[2:4])` over `description.split()`); for withdrawals, the
description up to the first `-`, stripped, truncated to 50 characters. -/
def extract_source (description : String) (amount : ℚ) : String :=
  if 0 < amount then
    let d := strLower description
    if containsSub d "direct dep" || containsSub d "payroll" then
      let parts := pySplitWs description
      if 2 < parts.length then String.intercalate " " ((parts.drop 2).take 2) else "Payroll"
    else if containsSub d "transfer" then "Transfer"
    else if containsSub d "interest" then "Interest"
    else "Other"
  else
    String.mk ((trimL (description.toList.takeWhile (fun c => !(c == '-')))).take 50)

/-- The classifier as one function, the pure `(description, amount) →
(category, source)` contract. -/
def classify (description : String) (amount : ℚ) : String × String :=
  (categorize_transaction description amount, extract_source description amount)

/-! ## Amount parsing (`csv_parser.py`) -/

/-- Numeric value of a digit list (most significant first). -/
def digitsVal (cs : List Char) : Nat :=
  cs.foldl (fun n c => 10 * n + (c.toNat - 48)) 0

/-- Python `float(...)` on the unsigned decimal literals this parser can
produce after cleaning: digits with an optional fractional point
(`"12"`, `"12."`, `".5"`, `"12.5"`); anything else fails.  Exponent and
special-value spellings never survive the cleaning and are elided. -/
def parseUnsignedQ (cs : List Char) : Option ℚ :=
  let intPart := cs.takeWhile Char.isDigit
  let rest := cs.dropWhile Char.isDigit
  match rest with
  | [] => if intPart.isEmpty then none else some (digitsVal intPart)
  | '.' :: frac =>
      if (intPart.isEmpty && frac.isEmpty) || !frac.all Char.isDigit then none
      else some ((digitsVal intPart : ℚ) + (digitsVal frac : ℚ) / (10 ^ frac.length))
  | _ => none

/-- Python `float(...)` with an optional leading sign. -/
def parseFloatQ (cs : List Char) : Option ℚ :=
  match cs with
  | '-' :: rest => (parseUnsignedQ rest).map (fun q => -q)
  | '+' :: rest => parseUnsignedQ rest
  | _ => parseUnsignedQ cs

/-- ETradeCSVParser._parse_amount: a missing value (`pd.isna`) parses to
`0.0`; otherwise the string is stripped, `$`, `,` and spaces are removed,
a fully parenthesised form is negated, and the remainder must parse as a
float — `none` models the `ValueError` the method raises. -/
def parse_amount : Option String → Option ℚ
  | none => some 0
  | some v =>
      let s := (trimL v.toList).filter (fun c => !(c == '$' || c == ',' || c == ' '))
      let s' := match s with
        | '(' :: rest => if rest.getLast? = some ')' then '-' :: rest.dropLast else '(' :: rest
        | _ => s
      parseFloatQ s'

/-- The amount-cell handling of `_process_dataframe`: each row is
normalized independently; a row whose amount cell fails to parse raises,
is caught, and is skipped, and the loop continues with the next row
(modelled here on the amount cells of a batch, the claim-relevant part of
the row loop). -/
def processAmountCells (cells : List (Option String)) : List ℚ :=
  cells.filterMap parse_amount

/-! ## Projector (`projections.py`) -/

/-- One recurring cash-flow template (the `amount`/`frequency` dict). -/
structure RecurringTemplate where
  amount : ℚ
  frequency : String
deriving Repr, DecidableEq

/-- The `frequency_map` dict with its `.get(frequency, 1)` default. -/
def frequency_map (f : String) : ℚ :=
  if f == "weekly" then 52 / 12
  else if f == "biweekly" then 26 / 12
  else if f == "monthly" then 1
  else if f == "quarterly" then 1 / 3
  else if f == "yearly" then 1 / 12
  else 1

/-- Total monthly recurring deposit volume: `Σ amount × occurrences per
month` over the deposit templates (frequency lower-cased first). -/
def monthlyDeposits (ds : List RecurringTemplate) : ℚ :=
  ds.foldl (fun acc d => acc + d.amount * frequency_map (strLower d.frequency)) 0

/-- Total monthly recurring withdrawal volume, sign-normalised with
`abs`. -/
def monthlyWithdrawals (ws : List RecurringTemplate) : ℚ :=
  ws.foldl (fun acc w => acc + |w.amount| * frequency_map (strLower w.frequency)) 0

/-- One month entry of the projection list.  The calendar labels
(`month`, `month_name`) are wall-clock offsets of `datetime.now()` and
are carried as the month index `i`. -/
structure ProjectionEntry where
  monthIndex : Nat
  deposits : ℚ
  withdrawals : ℚ
  net_change : ℚ
  projected_balance : ℚ
deriving Repr, DecidableEq

/-- The entry the loop body appends for month `i` at running balance
`bal`: month 0 reports zero deposits/withdrawals/net. -/
def mkProjEntry (md mw mnet : ℚ) (i : Nat) (bal : ℚ) : ProjectionEntry :=
  ⟨i, if 0 < i then md else 0, if 0 < i then mw else 0, if 0 < i then mnet else 0, bal⟩

/-- The projection loop of `calculate_projections`: starting at month `i`
with running balance `bal` and `r` further months to emit, produce the
entries and the final running balance (the balance is advanced by
`monthly_net` after every month except the last, exactly as the
`if i < months` guard does). -/
def projLoop (md mw mnet : ℚ) : Nat → ℚ → Nat → List ProjectionEntry × ℚ
  | i, bal, 0 => ([mkProjEntry md mw mnet i bal], bal)
  | i, bal, r + 1 =>
      let rest := projLoop md mw mnet (i + 1) (bal + mnet) r
      (mkProjEntry md mw mnet i bal :: rest.1, rest.2)

/-- The summary dict of `calculate_projections`.  `months_until_zero`
uses the floor of the positive quotient, matching Python
`int(current_balance / abs(monthly_net))` (truncation and floor agree on
the nonnegative values the guard admits). -/
structure ProjectionSummary where
  current_balance : ℚ
  final_balance : ℚ
  total_change : ℚ
  total_deposits : ℚ
  total_withdrawals : ℚ
  monthly_net : ℚ
  trend : String
  months_until_zero : Option ℤ
deriving Repr, DecidableEq

/-- calculate_projections (`projections.py`): the monthly entry list and
the summary. -/
def calculate_projections (current_balance : ℚ) (months : Nat)
    (recurring_deposits recurring_withdrawals : List RecurringTemplate) :
    List ProjectionEntry × ProjectionSummary :=
  let md := monthlyDeposits recurring_deposits
  let mw := monthlyWithdrawals recurring_withdrawals
  let mnet := md - mw
  let loop := projLoop md mw mnet 0 current_balance months
  let final_balance := loop.2
  (loop.1,
    { current_balance := current_balance
      final_balance := final_balance
      total_change := final_balance - current_balance
      total_deposits := md * months
      total_withdrawals := mw * months
      monthly_net := mnet
      trend := if 0 < mnet then "positive" else if mnet < 0 then "negative" else "neutral"
      months_until_zero :=
        if mnet < 0 ∧ 0 < current_balance then some ⌊current_balance / |mnet|⌋ else none })

/-! ## Order lemmas for the string comparison and SQL MIN -/

/-- Strict code order is irreflexive. -/
theorem ltCodes_irrefl : ∀ a : List Char, ltCodes a a = false
  | [] => rfl
  | c :: cs => by simp [ltCodes, ltCodes_irrefl cs]

/-- Strict code order is asymmetric. -/
theorem ltCodes_asymm : ∀ a b : List Char, ltCodes a b = true → ltCodes b a = false
  | [], [], _ => rfl
  | [], _ :: _, _ => rfl
  | _ :: _, [], h => by simp [ltCodes] at h
  | x :: xs, y :: ys, h => by
      simp only [ltCodes, Bool.or_eq_true, Bool.and_eq_true, decide_eq_true_eq,
        beq_iff_eq] at h
      rcases h with h | ⟨hxy, hlt⟩
      · simp only [ltCodes, Bool.or_eq_false_iff, Bool.and_eq_false_iff,
          decide_eq_false_iff_not, beq_eq_false_iff_ne, ne_eq]
        exact ⟨Nat.lt_asymm h, Or.inl (fun he => Nat.lt_irrefl _ (he ▸ h))⟩
      · simp only [ltCodes, Bool.or_eq_false_iff, Bool.and_eq_false_iff,
          decide_eq_false_iff_not, beq_eq_false_iff_ne, ne_eq]
        exact ⟨fun hc => Nat.lt_irrefl _ (hxy ▸ hc), Or.inr (ltCodes_asymm xs ys hlt)⟩

/-- Negative transitivity of the strict code order (transitivity of the
induced non-strict order). -/
theorem ltCodes_neg_trans :
    ∀ a b c : List Char, ltCodes b a = false → ltCodes c b = false → ltCodes c a = false
  | [], _, c, _, _ => by cases c <;> rfl
  | _ :: _, [], _, h1, _ => by simp [ltCodes] at h1
  | _ :: _, _ :: _, [], _, h2 => by simp [ltCodes] at h2
  | x :: xs, y :: ys, z :: zs, h1, h2 => by
      simp only [ltCodes, Bool.or_eq_false_iff, Bool.and_eq_false_iff,
        decide_eq_false_iff_not, beq_eq_false_iff_ne, ne_eq] at h1 h2 ⊢
      obtain ⟨hyx, h1r⟩ := h1
      obtain ⟨hzy, h2r⟩ := h2
      have hxy : x.toNat ≤ y.toNat := Nat.le_of_not_lt hyx
      have hyz : y.toNat ≤ z.toNat := Nat.le_of_not_lt hzy
      refine ⟨fun hzx => Nat.lt_irrefl _ (Nat.lt_of_lt_of_le (Nat.lt_of_lt_of_le hzx hxy) hyz), ?_⟩
      by_cases hzx : z.toNat = x.toNat
      · have hyx' : y.toNat = x.toNat := Nat.le_antisymm (hzx ▸ hyz) hxy
        have h1' : ltCodes ys xs = false := by
          rcases h1r with h | h
          · exact absurd hyx' h
          · exact h
        have h2' : ltCodes zs ys = false := by
          rcases h2r with h | h
          · exact absurd (hzx.trans hyx'.symm) h
          · exact h
        exact Or.inr (ltCodes_neg_trans xs ys zs h1' h2')
      · exact Or.inl hzx

/-- The non-strict string comparison is reflexive. -/
theorem strLeB_refl (a : String) : strLeB a a = true := by
  simp [strLeB, strLtB, ltCodes_irrefl]

/-- The non-strict string comparison is transitive. -/
theorem strLeB_trans {a b c : String} (h1 : strLeB a b = true) (h2 : strLeB b c = true) :
    strLeB a c = true := by
  simp only [strLeB, strLtB, Bool.not_eq_true'] at h1 h2 ⊢
  exact ltCodes_neg_trans a.toList b.toList c.toList h1 h2

/-- Strict implies non-strict for the string comparison. -/
theorem strLeB_of_strLtB {a b : String} (h : strLtB a b = true) : strLeB a b = true := by
  simp only [strLeB, strLtB, Bool.not_eq_true'] at *
  exact ltCodes_asymm a.toList b.toList h

/-- A string is never strictly below itself and below something strictly
below it at once: `strLeB m a` and `strLtB a b` exclude `m = b`. -/
theorem ne_of_strLeB_strLtB {m a b : String} (h1 : strLeB m a = true)
    (h2 : strLtB a b = true) : m ≠ b := by
  rintro rfl
  rw [strLeB, h2] at h1
  simp at h1

/-- The running minimum of the SQL MIN fold is an element of the column. -/
theorem foldMin_mem : ∀ (xs : List String) (x : String),
    xs.foldl (fun a b => if strLtB b a then b else a) x ∈ x :: xs
  | [], x => by simp
  | c :: cs, x => by
      have ih := foldMin_mem cs (if strLtB c x then c else x)
      simp only [List.foldl_cons]
      rcases List.mem_cons.mp ih with h | h
      · rw [h]
        by_cases hc : strLtB c x = true
        · simp [hc]
        · simp [hc]
      · simp [h]

/-- The running minimum of the SQL MIN fold is below every element. -/
theorem foldMin_le : ∀ (xs : List String) (x y : String), y ∈ x :: xs →
    strLeB (xs.foldl (fun a b => if strLtB b a then b else a) x) y = true
  | [], x, y, hy => by
      simp only [List.mem_cons, List.not_mem_nil, or_false] at hy
      simp only [List.foldl_nil]
      rw [hy]
      exact strLeB_refl x
  | c :: cs, x, y, hy => by
      have hmx : strLeB (if strLtB c x then c else x) x = true := by
        by_cases hc : strLtB c x = true
        · simpa [hc] using strLeB_of_strLtB hc
        · simp [hc, strLeB_refl]
      have hmc : strLeB (if strLtB c x then c else x) c = true := by
        by_cases hc : strLtB c x = true
        · simp [hc, strLeB_refl]
        · simp only [hc, if_false]
          simp only [strLeB, Bool.not_eq_true'] at hc ⊢
          simpa using hc
      have hres : strLeB (cs.foldl (fun a b => if strLtB b a then b else a)
          (if strLtB c x then c else x)) (if strLtB c x then c else x) = true :=
        foldMin_le cs _ _ (List.mem_cons_self _ _)
      simp only [List.foldl_cons]
      rcases List.mem_cons.mp hy with h | h
      · subst h
        exact strLeB_trans hres hmx
      · rcases List.mem_cons.mp h with h' | h'
        · subst h'
          exact strLeB_trans hres hmc
        · exact foldMin_le cs _ y (List.mem_cons_of_mem _ h')

/-- SQL MIN returns a member of the column. -/
theorem sqlMinStr_mem {l : List String} {m : String} (h : sqlMinStr l = some m) : m ∈ l := by
  cases l with
  | nil => simp [sqlMinStr] at h
  | cons x xs =>
      simp only [sqlMinStr, Option.some_inj] at h
      exact h ▸ foldMin_mem xs x

/-- SQL MIN is below every member of the column. -/
theorem sqlMinStr_le {l : List String} {m : String} (h : sqlMinStr l = some m) :
    ∀ y ∈ l, strLeB m y = true := by
  cases l with
  | nil => simp [sqlMinStr] at h
  | cons x xs =>
      intro y hy
      simp only [sqlMinStr, Option.some_inj] at h
      exact h ▸ foldMin_le xs x y hy

/-- SQL MIN of a nonempty constant column is that constant. -/
theorem sqlMinStr_const {l : List String} {B : String} (hne : l ≠ [])
    (hall : ∀ y ∈ l, y = B) : sqlMinStr l = some B := by
  cases l with
  | nil => exact absurd rfl hne
  | cons x xs =>
      have hm : sqlMinStr (x :: xs) = some (xs.foldl (fun a b => if strLtB b a then b else a) x) := rfl
      rw [hm, Option.some_inj]
      exact hall _ (foldMin_mem xs x)

/-- SQL MIN of a nonempty column is defined. -/
theorem sqlMinStr_isSome {l : List String} (hne : l ≠ []) : ∃ m, sqlMinStr l = some m := by
  cases l with
  | nil => exact absurd rfl hne
  | cons x xs => exact ⟨_, rfl⟩

/-! ## C5: classifier determinism and rule priority -/

/-- C5: the classifier is a pure deterministic function of
`(description, amount)` that depends on the amount only through its sign:
for `0 < amount` the deposit rule list is consulted and otherwise the
withdrawal rule list, with the first matching rule winning — in
particular, an amount-≤-0 description matching an `ATM/Cash` keyword is
classified `ATM/Cash` whatever later rules would match, a deposit matching
an `Income` keyword is classified `Income`, and
`("ATM WITHDRAWAL GROCERY", -40)` classifies to `"ATM/Cash"` (with source
`"ATM WITHDRAWAL GROCERY"`) even though the `Groceries` keyword
`"grocery"` also occurs. -/
theorem C5_classifier_deterministic_priority :
    (∀ d : String, ∀ a b : ℚ, (0 < a ↔ 0 < b) → classify d a = classify d b)
    ∧ (∀ d : String, ∀ a : ℚ, ¬0 < a →
        (["atm", "withdrawal"].any (fun k => containsSub (strLower d) k)) = true →
        categorize_transaction d a = "ATM/Cash")
    ∧ (∀ d : String, ∀ a : ℚ, 0 < a →
        (["direct dep", "deposit", "payroll", "salary"].any
          (fun k => containsSub (strLower d) k)) = true →
        categorize_transaction d a = "Income")
    ∧ classify "ATM WITHDRAWAL GROCERY" (-40) = ("ATM/Cash", "ATM WITHDRAWAL GROCERY")
    ∧ containsSub (strLower "ATM WITHDRAWAL GROCERY") "grocery" = true
    ∧ categorize_transaction "ATM WITHDRAWAL GROCERY" (-40) ≠ "Groceries" := by
  refine ⟨?_, ?_, ?_, by decide, by decide, by decide⟩
  · intro d a b hiff
    by_cases h : 0 < a
    · have hb : 0 < b := hiff.mp h
      simp [classify, categorize_transaction, extract_source, h, hb]
    · have hb : ¬0 < b := fun hb => h (hiff.mpr hb)
      simp [classify, categorize_transaction, extract_source, h, hb]
  · intro d a ha hm
    simp [categorize_transaction, ha, hm]
  · intro d a ha hm
    simp [categorize_transaction, ha, hm]

/-- Witness for C5 at concrete inputs. -/
theorem C5_classifier_witness :
    classify "payroll acme corp" 5 = classify "payroll acme corp" 7
    ∧ categorize_transaction "ATM FEE" (-1) = "ATM/Cash"
    ∧ categorize_transaction "PAYROLL ACME" 10 = "Income" :=
  ⟨C5_classifier_deterministic_priority.1 "payroll acme corp" 5 7 (by norm_num),
   C5_classifier_deterministic_priority.2.1 "ATM FEE" (-1) (by norm_num) (by decide),
   C5_classifier_deterministic_priority.2.2.1 "PAYROLL ACME" 10 (by norm_num) (by decide)⟩

/-! ## C8: amount normalisation -/

/-- C8: amount parsing strips the currency symbol, thousands separators
and whitespace (`"$1,234.56" → 1234.56`, `"1000" → 1000.0`), negates the
parenthesised form (`"(500.00)" → -500.00`), treats a missing amount
value as `0.0` (row kept), and a present but unparseable amount makes
exactly that row drop out of the processed batch while the surrounding
rows are processed normally. -/
theorem C8_amount_normalization :
    parse_amount (some "$1,234.56") = some (1234.56 : ℚ)
    ∧ parse_amount (some "(500.00)") = some (-500.00 : ℚ)
    ∧ parse_amount (some "1000") = some (1000 : ℚ)
    ∧ parse_amount none = some 0
    ∧ (∀ pre post : List (Option String), ∀ bad : String,
        parse_amount (some bad) = none →
        processAmountCells (pre ++ some bad :: post)
          = processAmountCells pre ++ processAmountCells post) := by
  refine ⟨?_, ?_, ?_, rfl, ?_⟩
  · rw [show parse_amount (some "$1,234.56")
        = some ((digitsVal ['1', '2', '3', '4'] : ℚ) + (digitsVal ['5', '6'] : ℚ) / 10 ^ 2)
      from rfl]
    rw [show digitsVal ['1', '2', '3', '4'] = 1234 from rfl,
      show digitsVal ['5', '6'] = 56 from rfl]
    norm_num
  · rw [show parse_amount (some "(500.00)")
        = some (-((digitsVal ['5', '0', '0'] : ℚ) + (digitsVal ['0', '0'] : ℚ) / 10 ^ 2))
      from rfl]
    rw [show digitsVal ['5', '0', '0'] = 500 from rfl, show digitsVal ['0', '0'] = 0 from rfl]
    norm_num
  · rw [show parse_amount (some "1000") = some ((digitsVal ['1', '0', '0', '0'] : ℚ)) from rfl]
    rw [show digitsVal ['1', '0', '0', '0'] = 1000 from rfl]
    norm_num
  · intro pre post bad hbad
    simp [processAmountCells, List.filterMap_append, List.filterMap_cons, hbad]

/-- Witness for C8 at a concrete batch with an unparseable middle row. -/
theorem C8_amount_witness :
    processAmountCells [some "1", some "abc", some "2"]
      = processAmountCells [some "1"] ++ processAmountCells [some "2"] :=
  C8_amount_normalization.2.2.2.2 [some "1"] [some "2"] "abc" rfl

/-! ## C3: statistics on the empty set -/

/-- C3: on an empty result set (no stored transactions, or a date range
matching none) the count is `0` and the min/max dates are `NULL` in both
backends, and neither computation can throw; but the SQLite backend
(`database.py`, plain `SUM` with no `COALESCE`) returns `NULL` — not `0`
— for `total_deposits`, `total_withdrawals` and `net_change`, while the
PostgreSQL backend (`database_pg.py`, `COALESCE(SUM(...), 0)`) returns
the zeros the claim requires.  This exhibits the divergence of the
SQLite backend from the claim at the failing input. -/
theorem C3_empty_statistics :
    get_statistics ⟨[], 0, []⟩ none none
      = ⟨0, none, none, none, none, none, none⟩
    ∧ get_statistics_pg ⟨[], 0, []⟩ none none
      = ⟨0, some 0, some 0, some 0, some 0, none, none⟩
    ∧ get_statistics
        ⟨[⟨1, "2024-05-01", "PAYROLL ACME", 100, none, none, none, none, none, none⟩], 2, []⟩
        (some "2025-01-01") (some "2025-12-31")
      = ⟨0, none, none, none, none, none, none⟩
    ∧ get_statistics_pg
        ⟨[⟨1, "2024-05-01", "PAYROLL ACME", 100, none, none, none, none, none, none⟩], 2, []⟩
        (some "2025-01-01") (some "2025-12-31")
      = ⟨0, some 0, some 0, some 0, some 0, none, none⟩ := by
  refine ⟨rfl, rfl, by decide, by decide⟩

/-! ## C6: balance projections -/

/-- Complete characterisation of the projection loop: starting at month
`i` with balance `bal` and `r` months to go, it emits `r + 1` entries,
entry `j` is the month-`(i+j)` entry at balance `bal + j·net`, and the
final running balance is `bal + r·net`. -/
theorem projLoop_spec (md mw mnet : ℚ) :
    ∀ (r i : Nat) (bal : ℚ),
      (projLoop md mw mnet i bal r).1.length = r + 1
      ∧ (∀ j : Nat, j ≤ r →
          (projLoop md mw mnet i bal r).1[j]?
            = some (mkProjEntry md mw mnet (i + j) (bal + (j : ℚ) * mnet)))
      ∧ (projLoop md mw mnet i bal r).2 = bal + (r : ℚ) * mnet
  | 0, i, bal => by
      refine ⟨rfl, ?_, by simp [projLoop]⟩
      intro j hj
      interval_cases j
      simp [projLoop]
  | r + 1, i, bal => by
      obtain ⟨ih1, ih2, ih3⟩ := projLoop_spec md mw mnet r (i + 1) (bal + mnet)
      refine ⟨?_, ?_, ?_⟩
      · simp [projLoop, ih1]
      · intro j hj
        cases j with
        | zero => simp [projLoop]
        | succ j' =>
            have hj' : j' ≤ r := Nat.le_of_succ_le_succ hj
            have := ih2 j' hj'
            simp only [projLoop, List.getElem?_cons_succ]
            rw [this]
            have hidx : i + 1 + j' = i + (j' + 1) := by omega
            have hbal : bal + mnet + (j' : ℚ) * mnet = bal + (((j' + 1 : Nat)) : ℚ) * mnet := by
              push_cast
              ring
            rw [hidx, hbal]
      · simp only [projLoop]
        rw [ih3]
        push_cast
        ring

/-- C6: `calculate_projections` emits `numMonths + 1` entries; entry 0 has
zero deposits, withdrawals and net change at the starting balance; entry
`i` (for `i ≤ numMonths`) carries balance `currentBalance + i·monthly_net`
with the monthly deposit/withdrawal/net figures; the trend is the sign of
`monthly_net`; `months_until_zero` is `⌊currentBalance / |monthly_net|⌋`
exactly when `monthly_net < 0` and `currentBalance > 0`, else `NULL`; and
the spec's example (1000, 2 months, one monthly 500 deposit, one monthly
700 withdrawal) yields balances 1000, 800, 600, trend `"negative"` and
`months_until_zero = 5`. -/
theorem C6_projection_schedule :
    (∀ (cb : ℚ) (months : Nat) (ds ws : List RecurringTemplate),
      (calculate_projections cb months ds ws).1.length = months + 1)
    ∧ (∀ (cb : ℚ) (months : Nat) (ds ws : List RecurringTemplate), ∀ j : Nat, j ≤ months →
        (calculate_projections cb months ds ws).1[j]?
          = some (mkProjEntry (monthlyDeposits ds) (monthlyWithdrawals ws)
              (monthlyDeposits ds - monthlyWithdrawals ws) j
              (cb + (j : ℚ) * (monthlyDeposits ds - monthlyWithdrawals ws))))
    ∧ (∀ (cb : ℚ) (months : Nat) (ds ws : List RecurringTemplate),
        (calculate_projections cb months ds ws).1[0]? = some ⟨0, 0, 0, 0, cb⟩)
    ∧ (∀ (cb : ℚ) (months : Nat) (ds ws : List RecurringTemplate),
        (calculate_projections cb months ds ws).2.trend
          = (if 0 < monthlyDeposits ds - monthlyWithdrawals ws then "positive"
             else if monthlyDeposits ds - monthlyWithdrawals ws < 0 then "negative"
             else "neutral")
        ∧ (calculate_projections cb months ds ws).2.months_until_zero
          = (if monthlyDeposits ds - monthlyWithdrawals ws < 0 ∧ 0 < cb
             then some ⌊cb / |monthlyDeposits ds - monthlyWithdrawals ws|⌋ else none))
    ∧ ((calculate_projections 1000 2 [⟨500, "monthly"⟩] [⟨700, "monthly"⟩]).1.map
          (fun e => e.projected_balance) = [1000, 800, 600]
        ∧ (calculate_projections 1000 2 [⟨500, "monthly"⟩] [⟨700, "monthly"⟩]).2.trend
          = "negative"
        ∧ (calculate_projections 1000 2 [⟨500, "monthly"⟩] [⟨700, "monthly"⟩]).2.months_until_zero
          = some 5) := by
  have hmd : monthlyDeposits [⟨500, "monthly"⟩] = 500 := by
    show 0 + 500 * frequency_map (strLower "monthly") = 500
    rw [show strLower "monthly" = "monthly" from rfl]
    rw [show frequency_map "monthly" = 1 from rfl]
    norm_num
  have hmw : monthlyWithdrawals [⟨700, "monthly"⟩] = 700 := by
    show 0 + |(700 : ℚ)| * frequency_map (strLower "monthly") = 700
    rw [show strLower "monthly" = "monthly" from rfl]
    rw [show frequency_map "monthly" = 1 from rfl]
    norm_num
  refine ⟨?_, ?_, ?_, ?_, ?_, ?_, ?_⟩
  · intro cb months ds ws
    exact (projLoop_spec _ _ _ months 0 cb).1
  · intro cb months ds ws j hj
    have h := (projLoop_spec (monthlyDeposits ds) (monthlyWithdrawals ws)
      (monthlyDeposits ds - monthlyWithdrawals ws) months 0 cb).2.1 j hj
    simpa [calculate_projections] using h
  · intro cb months ds ws
    have h := (projLoop_spec (monthlyDeposits ds) (monthlyWithdrawals ws)
      (monthlyDeposits ds - monthlyWithdrawals ws) months 0 cb).2.1 0 (Nat.zero_le _)
    simp only [calculate_projections]
    simpa [mkProjEntry] using h
  · intro cb months ds ws
    exact ⟨rfl, rfl⟩
  · have h1 := (projLoop_spec (500 : ℚ) 700 (500 - 700) 2 0 1000).2.1
    have e0 := h1 0 (by norm_num)
    have e1 := h1 1 (by norm_num)
    have e2 := h1 2 (by norm_num)
    have hlen := (projLoop_spec (500 : ℚ) 700 (500 - 700) 2 0 1000).1
    simp only [calculate_projections, hmd, hmw]
    have hform : ∀ l : List ProjectionEntry, l.length = 3 →
        l[0]? = some (mkProjEntry 500 700 (500 - 700) 0 (1000 + (0 : ℚ) * (500 - 700))) →
        l[1]? = some (mkProjEntry 500 700 (500 - 700) 1 (1000 + (1 : ℚ) * (500 - 700))) →
        l[2]? = some (mkProjEntry 500 700 (500 - 700) 2 (1000 + (2 : ℚ) * (500 - 700))) →
        l.map (fun e => e.projected_balance) = [1000, 800, 600] := by
      intro l hl h0 h2 h3
      match l, hl with
      | [a, b, c], _ =>
          simp only [List.getElem?_cons_zero, List.getElem?_cons_succ,
            Option.some_inj] at h0 h2 h3
          subst h0; subst h2; subst h3
          simp [mkProjEntry]
          norm_num
    exact hform _ (by simpa using hlen) (by simpa using e0) (by simpa using e1)
      (by simpa using e2)
  · show (if (0 : ℚ) < monthlyDeposits [⟨500, "monthly"⟩] - monthlyWithdrawals [⟨700, "monthly"⟩]
        then "positive"
        else if monthlyDeposits [⟨500, "monthly"⟩] - monthlyWithdrawals [⟨700, "monthly"⟩] < 0
        then "negative" else "neutral") = "negative"
    rw [hmd, hmw]
    norm_num
  · show (if monthlyDeposits [⟨500, "monthly"⟩] - monthlyWithdrawals [⟨700, "monthly"⟩] < 0
          ∧ (0 : ℚ) < 1000
        then some ⌊(1000 : ℚ)
          / |monthlyDeposits [⟨500, "monthly"⟩] - monthlyWithdrawals [⟨700, "monthly"⟩]|⌋
        else none) = some 5
    rw [hmd, hmw]
    norm_num

/-- Witness for C6: the month-1 entry of the spec's example, via the
general schedule theorem. -/
theorem C6_projection_witness :
    (calculate_projections 1000 2 [⟨500, "monthly"⟩] [⟨700, "monthly"⟩]).1[1]?
      = some (mkProjEntry (monthlyDeposits [⟨500, "monthly"⟩])
          (monthlyWithdrawals [⟨700, "monthly"⟩])
          (monthlyDeposits [⟨500, "monthly"⟩] - monthlyWithdrawals [⟨700, "monthly"⟩]) 1
          (1000 + ((1 : Nat) : ℚ)
            * (monthlyDeposits [⟨500, "monthly"⟩] - monthlyWithdrawals [⟨700, "monthly"⟩]))) :=
  C6_projection_schedule.2.1 1000 2 [⟨500, "monthly"⟩] [⟨700, "monthly"⟩] 1 (by norm_num)

/-! ## C2 and C4: batch insertion lemmas -/

/-- Running the insertion fold from arbitrary starting counters shifts the
returned counters and leaves the store unchanged. -/
theorem insert_foldl_shift :
    ∀ (batch : List TxnCandidate) (st : Store) (i0 s0 : Nat),
      batch.foldl
        (fun acc c =>
          ((insertTxn acc.1 c).1,
           if (insertTxn acc.1 c).2 then acc.2.1 + 1 else acc.2.1,
           if (insertTxn acc.1 c).2 then acc.2.2 else acc.2.2 + 1))
        (st, i0, s0)
      = ((insert_transactions st batch).1,
         i0 + (insert_transactions st batch).2.1,
         s0 + (insert_transactions st batch).2.2)
  | [], st, i0, s0 => by simp [insert_transactions]
  | c :: batch, st, i0, s0 => by
      simp only [insert_transactions, List.foldl_cons]
      rw [insert_foldl_shift batch (insertTxn st c).1
          (if (insertTxn st c).2 then i0 + 1 else i0)
          (if (insertTxn st c).2 then s0 else s0 + 1),
        insert_foldl_shift batch (insertTxn st c).1
          (if (insertTxn st c).2 then 0 + 1 else 0)
          (if (insertTxn st c).2 then 0 else 0 + 1)]
      cases h : (insertTxn st c).2 <;> simp <;> omega

/-- One-step unfolding of `insert_transactions`. -/
theorem insert_transactions_cons (st : Store) (c : TxnCandidate) (batch : List TxnCandidate) :
    insert_transactions st (c :: batch)
      = ((insert_transactions (insertTxn st c).1 batch).1,
         (if (insertTxn st c).2 then 1 else 0)
           + (insert_transactions (insertTxn st c).1 batch).2.1,
         (if (insertTxn st c).2 then 0 else 1)
           + (insert_transactions (insertTxn st c).1 batch).2.2) := by
  simp only [insert_transactions, List.foldl_cons]
  rw [insert_foldl_shift batch (insertTxn st c).1
      (if (insertTxn st c).2 then 0 + 1 else 0)
      (if (insertTxn st c).2 then 0 else 0 + 1)]
  cases h : (insertTxn st c).2 <;> simp [insert_transactions]

/-- Inserted plus skipped counts always add up to the batch size: every
row is attempted exactly once. -/
theorem insert_count : ∀ (batch : List TxnCandidate) (st : Store),
    (insert_transactions st batch).2.1 + (insert_transactions st batch).2.2 = batch.length
  | [], st => rfl
  | c :: batch, st => by
      rw [insert_transactions_cons]
      have := insert_count batch (insertTxn st c).1
      cases h : (insertTxn st c).2 <;> simp <;> omega

/-- The store only grows during a batch insert: the prior rows stay, in
order, as a prefix of the final rows, and the person mappings are
untouched. -/
theorem insert_extends : ∀ (batch : List TxnCandidate) (st : Store),
    (∃ new, (insert_transactions st batch).1.txns = st.txns ++ new)
    ∧ (insert_transactions st batch).1.pms = st.pms
  | [], st => ⟨⟨[], by simp [insert_transactions]⟩, rfl⟩
  | c :: batch, st => by
      rw [insert_transactions_cons]
      obtain ⟨⟨new, hnew⟩, hpms⟩ := insert_extends batch (insertTxn st c).1
      by_cases h : hasTriple st.txns c = true
      · refine ⟨⟨new, ?_⟩, ?_⟩
        · simpa [insertTxn, h] using hnew
        · simpa [insertTxn, h] using hpms
      · refine ⟨⟨[mkStored st.nextId c] ++ new, ?_⟩, ?_⟩
        · have h1 : (insertTxn st c).1.txns = st.txns ++ [mkStored st.nextId c] := by
            simp [insertTxn, h]
          rw [hnew, h1, List.append_assoc]
        · have h1 : (insertTxn st c).1.pms = st.pms := by simp [insertTxn, h]
          rw [hpms, h1]

/-- Splitting a batch: the second half starts from the store the first
half produced, and the counters add. -/
theorem insert_append : ∀ (xs ys : List TxnCandidate) (st : Store),
    insert_transactions st (xs ++ ys)
      = ((insert_transactions (insert_transactions st xs).1 ys).1,
         (insert_transactions st xs).2.1
           + (insert_transactions (insert_transactions st xs).1 ys).2.1,
         (insert_transactions st xs).2.2
           + (insert_transactions (insert_transactions st xs).1 ys).2.2)
  | [], ys, st => by simp [insert_transactions]
  | x :: xs, ys, st => by
      rw [List.cons_append, insert_transactions_cons, insert_append xs ys (insertTxn st x).1,
        insert_transactions_cons]
      cases h : (insertTxn st x).2 <;> simp <;> omega

/-- A candidate whose key triple is already present is skipped and leaves
the store untouched. -/
theorem insertTxn_conflict {st : Store} {c : TxnCandidate} (h : hasTriple st.txns c = true) :
    insertTxn st c = (st, false) := by
  simp [insertTxn, h]

/-- Conflict detection is monotone: extending the rows preserves it. -/
theorem hasTriple_append_left {rows : List StoredTxn} {new : List StoredTxn} {c : TxnCandidate}
    (h : hasTriple rows c = true) : hasTriple (rows ++ new) c = true := by
  simp only [hasTriple, List.any_append, Bool.or_eq_true]
  exact Or.inl (by simpa [hasTriple] using h)

/-- After a batch insert, the key triple of every attempted candidate is
present in the store (it was either inserted or already there). -/
theorem insert_hasTriple : ∀ (batch : List TxnCandidate) (st : Store) (c : TxnCandidate),
    c ∈ batch → hasTriple (insert_transactions st batch).1.txns c = true
  | [], _, _, hc => by simp at hc
  | b :: batch, st, c, hc => by
      rw [insert_transactions_cons]
      rcases List.mem_cons.mp hc with h | h
      · subst h
        have hstep : hasTriple (insertTxn st c).1.txns c = true := by
          by_cases hh : hasTriple st.txns c = true
          · simp [insertTxn, hh]
          · have : (insertTxn st c).1.txns = st.txns ++ [mkStored st.nextId c] := by
              simp [insertTxn, hh]
            rw [this]
            simp [hasTriple, mkStored, List.any_append]
        obtain ⟨⟨new, hnew⟩, _⟩ := insert_extends batch (insertTxn st c).1
        simp only [hnew]
        exact hasTriple_append_left hstep
      · exact insert_hasTriple batch (insertTxn st b).1 c h

/-- A batch every member of which conflicts with the current store is
entirely skipped and changes nothing. -/
theorem insert_all_conflict : ∀ (batch : List TxnCandidate) (st : Store),
    (∀ c ∈ batch, hasTriple st.txns c = true) →
    insert_transactions st batch = (st, 0, batch.length)
  | [], st, _ => rfl
  | c :: batch, st, hall => by
      rw [insert_transactions_cons]
      have hc : insertTxn st c = (st, false) := insertTxn_conflict (hall c (by simp))
      rw [hc]
      have := insert_all_conflict batch st (fun d hd => hall d (List.mem_cons_of_mem _ hd))
      simp [this]
      omega

/-- C2: batch insertion attempts every row independently: inserted plus
skipped equals the number of attempted rows; the prior store contents are
never lost (they remain a prefix of the result, mappings untouched); and
a uniqueness conflict at row `k` of a batch is counted as one skip while
the rows already inserted before it are kept and the remaining rows are
still attempted from that same store. -/
theorem C2_insert_per_row_isolation :
    (∀ (st : Store) (batch : List TxnCandidate),
      (insert_transactions st batch).2.1 + (insert_transactions st batch).2.2 = batch.length)
    ∧ (∀ (st : Store) (batch : List TxnCandidate),
      (∃ new, (insert_transactions st batch).1.txns = st.txns ++ new)
      ∧ (insert_transactions st batch).1.pms = st.pms)
    ∧ (∀ (st : Store) (xs ys : List TxnCandidate) (c : TxnCandidate),
      hasTriple (insert_transactions st xs).1.txns c = true →
      insert_transactions st (xs ++ c :: ys)
        = ((insert_transactions (insert_transactions st xs).1 ys).1,
           (insert_transactions st xs).2.1
             + (insert_transactions (insert_transactions st xs).1 ys).2.1,
           (insert_transactions st xs).2.2 + 1
             + (insert_transactions (insert_transactions st xs).1 ys).2.2)) := by
  refine ⟨fun st batch => insert_count batch st, fun st batch => insert_extends batch st, ?_⟩
  intro st xs ys c hc
  rw [insert_append xs (c :: ys) st, insert_transactions_cons,
    insertTxn_conflict hc]
  simp
  omega

/-- Witness for C2: a concrete three-row batch whose middle row conflicts
with the first; the conflict is skipped, the first row survives, the
third row is inserted. -/
theorem C2_insert_witness :
    insert_transactions (⟨[], 0, []⟩ : Store)
        ([⟨"2024-01-01", "PAYROLL ACME", 100, none, none, none, none⟩]
          ++ (⟨"2024-01-01", "PAYROLL ACME", 100, none, none, none, none⟩ : TxnCandidate)
            :: [⟨"2024-01-02", "ATM FEE", -5, none, none, none, none⟩])
      = ((insert_transactions
            (insert_transactions (⟨[], 0, []⟩ : Store)
              [⟨"2024-01-01", "PAYROLL ACME", 100, none, none, none, none⟩]).1
            [⟨"2024-01-02", "ATM FEE", -5, none, none, none, none⟩]).1,
         (insert_transactions (⟨[], 0, []⟩ : Store)
            [⟨"2024-01-01", "PAYROLL ACME", 100, none, none, none, none⟩]).2.1
           + (insert_transactions
              (insert_transactions (⟨[], 0, []⟩ : Store)
                [⟨"2024-01-01", "PAYROLL ACME", 100, none, none, none, none⟩]).1
              [⟨"2024-01-02", "ATM FEE", -5, none, none, none, none⟩]).2.1,
         (insert_transactions (⟨[], 0, []⟩ : Store)
            [⟨"2024-01-01", "PAYROLL ACME", 100, none, none, none, none⟩]).2.2 + 1
           + (insert_transactions
              (insert_transactions (⟨[], 0, []⟩ : Store)
                [⟨"2024-01-01", "PAYROLL ACME", 100, none, none, none, none⟩]).1
              [⟨"2024-01-02", "ATM FEE", -5, none, none, none, none⟩]).2.2) :=
  C2_insert_per_row_isolation.2.2 ⟨[], 0, []⟩
    [⟨"2024-01-01", "PAYROLL ACME", 100, none, none, none, none⟩]
    [⟨"2024-01-02", "ATM FEE", -5, none, none, none, none⟩]
    ⟨"2024-01-01", "PAYROLL ACME", 100, none, none, none, none⟩ (by decide)

/-- C4 counterexample: importing the batch `[c, c]` (a file with an
internal duplicate row) into an empty store inserts `N = 1` row, yet the
second import of the identical batch yields `inserted = 0` and
`skipped = 2`, so the second run satisfies neither `inserted = N` nor
`skipped = N` — the claim's equations fail as stated. -/
theorem C4_reimport_counterexample :
    (insert_transactions (⟨[], 0, []⟩ : Store)
        [⟨"2024-01-01", "PAYROLL ACME", 100, none, none, none, none⟩,
         ⟨"2024-01-01", "PAYROLL ACME", 100, none, none, none, none⟩]).2.1 = 1
    ∧ (insert_transactions
        (insert_transactions (⟨[], 0, []⟩ : Store)
          [⟨"2024-01-01", "PAYROLL ACME", 100, none, none, none, none⟩,
           ⟨"2024-01-01", "PAYROLL ACME", 100, none, none, none, none⟩]).1
        [⟨"2024-01-01", "PAYROLL ACME", 100, none, none, none, none⟩,
         ⟨"2024-01-01", "PAYROLL ACME", 100, none, none, none, none⟩]).2 = (0, 2)
    ∧ ¬((0 : Nat) = 1 ∧ (2 : Nat) = 1) := by
  refine ⟨by decide, by decide, by decide⟩

/-- C4 (amended): re-importing an identical batch inserts nothing — every
row is skipped, the stored set is unchanged, and the second run returns
`(inserted, skipped) = (0, batch size)`; when the first import skipped no
rows, that skip count equals the first run's insert count `N`. -/
theorem C4_reimport_amended :
    (∀ (st : Store) (batch : List TxnCandidate),
      insert_transactions (insert_transactions st batch).1 batch
        = ((insert_transactions st batch).1, 0, batch.length))
    ∧ (∀ (st : Store) (batch : List TxnCandidate),
      (insert_transactions st batch).2.2 = 0 →
      (insert_transactions (insert_transactions st batch).1 batch).2.2
        = (insert_transactions st batch).2.1) := by
  have hmain : ∀ (st : Store) (batch : List TxnCandidate),
      insert_transactions (insert_transactions st batch).1 batch
        = ((insert_transactions st batch).1, 0, batch.length) := by
    intro st batch
    exact insert_all_conflict batch (insert_transactions st batch).1
      (fun c hc => insert_hasTriple batch st c hc)
  refine ⟨hmain, ?_⟩
  intro st batch hskip
  rw [hmain st batch]
  show batch.length = (insert_transactions st batch).2.1
  have := insert_count batch st
  omega

/-- Witness for C4 at a concrete clean import: one fresh row, skipped
nothing, so the second run's skip count equals the first run's insert
count. -/
theorem C4_reimport_witness :
    (insert_transactions
        (insert_transactions (⟨[], 0, []⟩ : Store)
          [⟨"2024-01-01", "PAYROLL ACME", 100, none, none, none, none⟩]).1
        [⟨"2024-01-01", "PAYROLL ACME", 100, none, none, none, none⟩]).2.2
      = (insert_transactions (⟨[], 0, []⟩ : Store)
          [⟨"2024-01-01", "PAYROLL ACME", 100, none, none, none, none⟩]).2.1 :=
  C4_reimport_amended.2 ⟨[], 0, []⟩
    [⟨"2024-01-01", "PAYROLL ACME", 100, none, none, none, none⟩] (by decide)

/-! ## C10: update_transaction frame conditions -/

/-- A single `SET` assignment never touches the immutable columns. -/
theorem setField_frame (t : StoredTxn) (fv : String × String) :
    (setField t fv).id = t.id
    ∧ (setField t fv).transaction_date = t.transaction_date
    ∧ (setField t fv).amount = t.amount
    ∧ (setField t fv).balance = t.balance
    ∧ (setField t fv).csv_hash = t.csv_hash
    ∧ (setField t fv).imported_at = t.imported_at := by
  unfold setField
  split_ifs <;> simp

/-- A whole `SET` clause never touches the immutable columns. -/
theorem foldSetField_frame : ∀ (updates : List (String × String)) (t : StoredTxn),
    (updates.foldl setField t).id = t.id
    ∧ (updates.foldl setField t).transaction_date = t.transaction_date
    ∧ (updates.foldl setField t).amount = t.amount
    ∧ (updates.foldl setField t).balance = t.balance
    ∧ (updates.foldl setField t).csv_hash = t.csv_hash
    ∧ (updates.foldl setField t).imported_at = t.imported_at
  | [], t => ⟨rfl, rfl, rfl, rfl, rfl, rfl⟩
  | u :: us, t => by
      obtain ⟨i1, i2, i3, i4, i5, i6⟩ := foldSetField_frame us (setField t u)
      obtain ⟨s1, s2, s3, s4, s5, s6⟩ := setField_frame t u
      exact ⟨i1.trans s1, i2.trans s2, i3.trans s3, i4.trans s4, i5.trans s5, i6.trans s6⟩

/-- C10: `update_transaction` touches at most the allow-listed fields
{category, source, notes, description} of the rows whose id matches: the
person mappings, the id counter and the row count are unchanged; every
row keeps its id, date, amount, balance, csv hash and import timestamp;
rows with a different id are untouched entirely; and a call carrying only
unrecognised field names leaves the whole store unchanged. -/
theorem C10_update_frame :
    (∀ (st : Store) (tid : Nat) (kwargs : List (String × String)),
      (update_transaction st tid kwargs).pms = st.pms
      ∧ (update_transaction st tid kwargs).nextId = st.nextId
      ∧ (update_transaction st tid kwargs).txns.length = st.txns.length)
    ∧ (∀ (st : Store) (tid : Nat) (kwargs : List (String × String)) (i : Nat) (t : StoredTxn),
      st.txns[i]? = some t →
      ∃ t', (update_transaction st tid kwargs).txns[i]? = some t'
        ∧ t'.id = t.id ∧ t'.transaction_date = t.transaction_date ∧ t'.amount = t.amount
        ∧ t'.balance = t.balance ∧ t'.csv_hash = t.csv_hash ∧ t'.imported_at = t.imported_at)
    ∧ (∀ (st : Store) (tid : Nat) (kwargs : List (String × String)) (i : Nat) (t : StoredTxn),
      st.txns[i]? = some t → t.id ≠ tid →
      (update_transaction st tid kwargs).txns[i]? = some t)
    ∧ (∀ (st : Store) (tid : Nat) (kwargs : List (String × String)),
      (∀ kv ∈ kwargs, valid_fields.contains kv.1 = false) →
      update_transaction st tid kwargs = st) := by
  have htxns : ∀ (st : Store) (tid : Nat) (kwargs : List (String × String)),
      (update_transaction st tid kwargs).txns
        = if (kwargs.filter (fun kv => valid_fields.contains kv.1)).isEmpty then st.txns
          else st.txns.map (fun t => if t.id == tid
            then (kwargs.filter (fun kv => valid_fields.contains kv.1)).foldl setField t
            else t) := by
    intro st tid kwargs
    simp only [update_transaction]
    split_ifs <;> rfl
  have hmeta : ∀ (st : Store) (tid : Nat) (kwargs : List (String × String)),
      (update_transaction st tid kwargs).pms = st.pms
      ∧ (update_transaction st tid kwargs).nextId = st.nextId := by
    intro st tid kwargs
    simp only [update_transaction]
    split_ifs <;> exact ⟨rfl, rfl⟩
  refine ⟨?_, ?_, ?_, ?_⟩
  · intro st tid kwargs
    refine ⟨(hmeta st tid kwargs).1, (hmeta st tid kwargs).2, ?_⟩
    rw [htxns]
    split_ifs <;> simp
  · intro st tid kwargs i t ht
    rw [htxns]
    split_ifs with h
    · exact ⟨t, ht, rfl, rfl, rfl, rfl, rfl, rfl⟩
    · refine ⟨if (t.id == tid) = true
          then (kwargs.filter (fun kv => valid_fields.contains kv.1)).foldl setField t else t,
        ?_, ?_⟩
      · rw [List.getElem?_map, ht, Option.map_some']
      · by_cases hid : (t.id == tid) = true
        · simp only [hid, if_true]
          exact foldSetField_frame _ t
        · simp only [hid, if_false]
          exact ⟨rfl, rfl, rfl, rfl, rfl, rfl⟩
  · intro st tid kwargs i t ht hid
    rw [htxns]
    split_ifs with h
    · exact ht
    · have hb : ¬((t.id == tid) = true) := by simp [hid]
      rw [List.getElem?_map, ht, Option.map_some', if_neg hb]
  · intro st tid kwargs hall
    have hfil : kwargs.filter (fun kv => valid_fields.contains kv.1) = [] := by
      rw [List.filter_eq_nil_iff]
      intro kv hkv
      simpa using hall kv hkv
    have he : (kwargs.filter (fun kv => valid_fields.contains kv.1)).isEmpty = true := by
      rw [hfil]
      rfl
    cases hst : update_transaction st tid kwargs with
    | mk txns nextId pms =>
        have h1 := (hmeta st tid kwargs).1
        have h2 := (hmeta st tid kwargs).2
        have h3 := htxns st tid kwargs
        rw [hst] at h1 h2 h3
        rw [he] at h3
        rw [if_pos rfl] at h3
        cases st
        simp only at h1 h2 h3
        simp [h1, h2, h3]

/-- Witness for C10: an update naming only the unrecognised fields
`amount` and `id` is a complete no-op on a concrete store, and a
recognised-field update on a different id leaves another row untouched. -/
theorem C10_update_witness :
    update_transaction
        ⟨[⟨1, "2024-01-01", "PAYROLL ACME", 100, none, none, none, none, none, none⟩], 2,
          [⟨1, "Alice", "ACME"⟩]⟩ 1 [("amount", "999"), ("id", "7")]
      = ⟨[⟨1, "2024-01-01", "PAYROLL ACME", 100, none, none, none, none, none, none⟩], 2,
          [⟨1, "Alice", "ACME"⟩]⟩
    ∧ (update_transaction
        ⟨[⟨1, "2024-01-01", "PAYROLL ACME", 100, none, none, none, none, none, none⟩], 2,
          [⟨1, "Alice", "ACME"⟩]⟩ 7 [("category", "Income")]).txns[0]?
      = some ⟨1, "2024-01-01", "PAYROLL ACME", 100, none, none, none, none, none, none⟩ :=
  ⟨C10_update_frame.2.2.2
      ⟨[⟨1, "2024-01-01", "PAYROLL ACME", 100, none, none, none, none, none, none⟩], 2,
        [⟨1, "Alice", "ACME"⟩]⟩ 1 [("amount", "999"), ("id", "7")] (by decide),
   C10_update_frame.2.2.1
      ⟨[⟨1, "2024-01-01", "PAYROLL ACME", 100, none, none, none, none, none, none⟩], 2,
        [⟨1, "Alice", "ACME"⟩]⟩ 7 [("category", "Income")] 0
      ⟨1, "2024-01-01", "PAYROLL ACME", 100, none, none, none, none, none, none⟩
      (by decide) (by decide)⟩

/-! ## C1 and C9: contribution attribution -/

/-- Characterisation of a produced contribution row: it carries the
transaction's own columns and the SQL MIN of the matching person names,
and only deposits inside the date range produce one. -/
theorem contribRowFor_some {pms : List PersonMapping} {sd ed pf : Option String}
    {t : StoredTxn} {r : ContributionRow} (h : contribRowFor pms sd ed pf t = some r) :
    r.id = t.id ∧ sqlMinStr (matchNames pms pf t.description) = some r.person_name
      ∧ 0 < t.amount ∧ inDateRange sd ed t.transaction_date = true := by
  unfold contribRowFor at h
  split_ifs at h with hcond
  rw [Option.map_eq_some'] at h
  obtain ⟨p, hp, hr⟩ := h
  subst hr
  simp only [Bool.and_eq_true, decide_eq_true_eq] at hcond
  exact ⟨rfl, hp, hcond.1, hcond.2⟩

/-- A transaction with a matching person produces a contribution row when
it is a deposit in range. -/
theorem contribRowFor_isSome {pms : List PersonMapping} {sd ed pf : Option String}
    {t : StoredTxn} (hdep : 0 < t.amount) (hrange : inDateRange sd ed t.transaction_date = true)
    (hne : matchNames pms pf t.description ≠ []) :
    ∃ p, contribRowFor pms sd ed pf t
      = some ⟨t.id, t.transaction_date, t.description, t.amount, t.balance, p⟩
      ∧ sqlMinStr (matchNames pms pf t.description) = some p := by
  obtain ⟨m, hm⟩ := sqlMinStr_isSome hne
  refine ⟨m, ?_, hm⟩
  unfold contribRowFor
  rw [if_pos (by simp [hdep, hrange]), hm]
  rfl

/-- No transaction with id different from `n` produces a row with id `n`. -/
theorem countP_contrib_zero :
    ∀ (txns : List StoredTxn) (pms : List PersonMapping) (sd ed pf : Option String) (n : Nat),
      (∀ v ∈ txns, v.id ≠ n) →
      (txns.filterMap (contribRowFor pms sd ed pf)).countP (fun x => x.id == n) = 0
  | [], _, _, _, _, _, _ => rfl
  | u :: txns, pms, sd, ed, pf, n, hall => by
      have ih := countP_contrib_zero txns pms sd ed pf n
        (fun v hv => hall v (List.mem_cons_of_mem _ hv))
      rw [List.filterMap_cons]
      cases hu : contribRowFor pms sd ed pf u with
      | none => exact ih
      | some r =>
          have hid : r.id = u.id := (contribRowFor_some hu).1
          rw [List.countP_cons]
          have : (r.id == n) = false := by
            simp [hid, hall u (List.mem_cons_self _ _)]
          simp [this, ih]

/-- With pairwise distinct ids, a deposit that produces a row is counted
exactly once among the produced rows. -/
theorem countP_contrib_one :
    ∀ (txns : List StoredTxn) (pms : List PersonMapping) (sd ed pf : Option String)
      (t : StoredTxn) (r : ContributionRow),
      (txns.map (fun x => x.id)).Nodup → t ∈ txns → contribRowFor pms sd ed pf t = some r →
      (txns.filterMap (contribRowFor pms sd ed pf)).countP (fun x => x.id == t.id) = 1
  | [], _, _, _, _, _, _, _, ht, _ => absurd ht (List.not_mem_nil _)
  | u :: txns, pms, sd, ed, pf, t, r, hnd, ht, hr => by
      rw [List.map_cons] at hnd
      have hnd1 : u.id ∉ txns.map (fun x => x.id) := (List.nodup_cons.mp hnd).1
      have hnd2 : (txns.map (fun x => x.id)).Nodup := (List.nodup_cons.mp hnd).2
      rcases List.mem_cons.mp ht with rfl | htl
      · rw [List.filterMap_cons, hr, List.countP_cons]
        have hone : (r.id == t.id) = true := by simp [(contribRowFor_some hr).1]
        have hzero : (txns.filterMap (contribRowFor pms sd ed pf)).countP
            (fun x => x.id == t.id) = 0 := by
          refine countP_contrib_zero txns pms sd ed pf t.id (fun v hv hvid => ?_)
          exact hnd1 (hvid ▸ List.mem_map_of_mem (fun x => x.id) hv)
        simp [hone, hzero]
      · rw [List.filterMap_cons]
        have hne : u.id ≠ t.id := fun he =>
          hnd1 (he ▸ List.mem_map_of_mem (fun x => x.id) htl)
        have ih := countP_contrib_one txns pms sd ed pf t r hnd2 htl hr
        cases hu : contribRowFor pms sd ed pf u with
        | none => exact ih
        | some r' =>
            rw [List.countP_cons]
            have : (r'.id == t.id) = false := by
              simp [(contribRowFor_some hu).1, hne]
            simp [this, ih]

/-- A person name matched without a filter is still matched when the
filter names exactly that person. -/
theorem matchNames_mem_filter {pms : List PersonMapping} {desc B : String}
    (h : B ∈ matchNames pms none desc) : B ∈ matchNames pms (some B) desc := by
  simp only [matchNames, List.mem_map, List.mem_filter] at h ⊢
  obtain ⟨pm, ⟨hpm, hmatch⟩, hname⟩ := h
  refine ⟨pm, ⟨hpm, ?_⟩, hname⟩
  simp only [Bool.and_eq_true] at hmatch ⊢
  exact ⟨by simp [hname], hmatch.2⟩

/-- Under a person-name filter, every matched name is the filtered name. -/
theorem matchNames_filter_eq {pms : List PersonMapping} {desc B : String} :
    ∀ n ∈ matchNames pms (some B) desc, n = B := by
  intro n hn
  simp only [matchNames, List.mem_map, List.mem_filter, Bool.and_eq_true, beq_iff_eq] at hn
  obtain ⟨pm, ⟨_, hb, _⟩, hname⟩ := hn
  rw [← hname, hb]

/-- C1: a stored deposit whose description matches keywords of more than
one person yields exactly one row in the unfiltered `get_contributions`
result, and that row's person is the alphabetically first matching
person name; in particular `"PAYROLL FROM ACME AND BETA"` matched by
keywords of `"Beta"` and `"Acme"` resolves to `"Acme"`. -/
theorem C1_contribution_tiebreak :
    (∀ (st : Store) (t : StoredTxn),
      (st.txns.map (fun x => x.id)).Nodup → t ∈ st.txns → 0 < t.amount →
      (∃ p ∈ matchNames st.pms none t.description,
        ∃ q ∈ matchNames st.pms none t.description, p ≠ q) →
      (get_contributions st none none none).countP (fun r => r.id == t.id) = 1
      ∧ ∀ r ∈ get_contributions st none none none, r.id = t.id →
          r.person_name ∈ matchNames st.pms none t.description
          ∧ ∀ q ∈ matchNames st.pms none t.description, strLeB r.person_name q = true)
    ∧ get_contributions
        ⟨[⟨1, "2024-05-01", "PAYROLL FROM ACME AND BETA", 100, none, none, none, none,
            none, none⟩], 2,
          [⟨1, "Beta", "BETA"⟩, ⟨2, "Acme", "ACME"⟩]⟩ none none none
      = [⟨1, "2024-05-01", "PAYROLL FROM ACME AND BETA", 100, none, "Acme"⟩] := by
  constructor
  · intro st t hnd ht hdep hmulti
    have hne : matchNames st.pms none t.description ≠ [] := by
      obtain ⟨p, hp, _⟩ := hmulti
      exact List.ne_nil_of_mem hp
    obtain ⟨m, hrow, hmin⟩ := contribRowFor_isSome hdep
      (rfl : inDateRange none none t.transaction_date = true) hne
    have hperm := List.mergeSort_perm (st.txns.filterMap (contribRowFor st.pms none none none))
      (fun a b => strLeB b.transaction_date a.transaction_date)
    constructor
    · have hcount : (get_contributions st none none none).countP (fun r => r.id == t.id)
          = (st.txns.filterMap (contribRowFor st.pms none none none)).countP
              (fun r => r.id == t.id) := hperm.countP_eq _
      rw [hcount]
      exact countP_contrib_one st.txns st.pms none none none t _ hnd ht hrow
    · intro r hr hrid
      have hr' : r ∈ st.txns.filterMap (contribRowFor st.pms none none none) :=
        hperm.mem_iff.mp hr
      obtain ⟨u, hu, hru⟩ := List.mem_filterMap.mp hr'
      obtain ⟨hrid', hmin', _, _⟩ := contribRowFor_some hru
      have huid : u.id = t.id := hrid' ▸ hrid
      have hut : u = t := List.inj_on_of_nodup_map hnd hu ht huid
      subst hut
      exact ⟨sqlMinStr_mem hmin', sqlMinStr_le hmin'⟩
  · have hfm : List.filterMap
        (contribRowFor [⟨1, "Beta", "BETA"⟩, ⟨2, "Acme", "ACME"⟩] none none none)
        [⟨1, "2024-05-01", "PAYROLL FROM ACME AND BETA", 100, none, none, none, none,
          none, none⟩]
        = [⟨1, "2024-05-01", "PAYROLL FROM ACME AND BETA", 100, none, "Acme"⟩] := by
      decide
    show (List.filterMap
        (contribRowFor [⟨1, "Beta", "BETA"⟩, ⟨2, "Acme", "ACME"⟩] none none none)
        [⟨1, "2024-05-01", "PAYROLL FROM ACME AND BETA", 100, none, none, none, none,
          none, none⟩]).mergeSort
        (fun a b => strLeB b.transaction_date a.transaction_date)
      = [⟨1, "2024-05-01", "PAYROLL FROM ACME AND BETA", 100, none, "Acme"⟩]
    rw [hfm]
    exact List.perm_singleton.mp (List.mergeSort_perm _ _)

/-- Witness for C1 at the spec's PAYROLL example: the deposit matching
both Beta's and Acme's keywords appears exactly once. -/
theorem C1_contribution_witness :
    (get_contributions
        ⟨[⟨1, "2024-05-01", "PAYROLL FROM ACME AND BETA", 100, none, none, none, none,
            none, none⟩], 2,
          [⟨1, "Beta", "BETA"⟩, ⟨2, "Acme", "ACME"⟩]⟩ none none none).countP
      (fun r => r.id == 1) = 1 :=
  (C1_contribution_tiebreak.1
    ⟨[⟨1, "2024-05-01", "PAYROLL FROM ACME AND BETA", 100, none, none, none, none,
        none, none⟩], 2,
      [⟨1, "Beta", "BETA"⟩, ⟨2, "Acme", "ACME"⟩]⟩
    ⟨1, "2024-05-01", "PAYROLL FROM ACME AND BETA", 100, none, none, none, none, none, none⟩
    (by decide) (by decide) (by decide)
    ⟨"Beta", by decide, "Acme", by decide, by decide⟩).1

/-- C9: the person-name filter restricts the keyword-join rows before the
alphabetical tie-break: a deposit matching persons `A` and `B` with
`A < B` is returned attributed to `B` by the `B`-filtered call, while no
row of the unfiltered call attributes it to `B` — the filtered view is
not the restriction of the unfiltered view. -/
theorem C9_filter_precedes_tiebreak :
    ∀ (st : Store) (t : StoredTxn) (A B : String),
      (st.txns.map (fun x => x.id)).Nodup → t ∈ st.txns → 0 < t.amount →
      A ∈ matchNames st.pms none t.description →
      B ∈ matchNames st.pms none t.description →
      strLtB A B = true →
      (∃ r ∈ get_contributions st none none (some B), r.id = t.id ∧ r.person_name = B)
      ∧ (∀ r ∈ get_contributions st none none none, r.id = t.id → r.person_name ≠ B) := by
  intro st t A B hnd ht hdep hA hB hAB
  constructor
  · have hBmem := matchNames_mem_filter hB
    have hne : matchNames st.pms (some B) t.description ≠ [] := List.ne_nil_of_mem hBmem
    obtain ⟨m, hrow, hmin⟩ := contribRowFor_isSome hdep
      (rfl : inDateRange none none t.transaction_date = true) hne
    have hmB : m = B := matchNames_filter_eq _ (sqlMinStr_mem hmin)
    have hperm := List.mergeSort_perm
      (st.txns.filterMap (contribRowFor st.pms none none (some B)))
      (fun a b => strLeB b.transaction_date a.transaction_date)
    refine ⟨⟨t.id, t.transaction_date, t.description, t.amount, t.balance, m⟩, ?_, rfl, hmB⟩
    exact hperm.mem_iff.mpr (List.mem_filterMap.mpr ⟨t, ht, hrow⟩)
  · intro r hr hrid
    have hperm := List.mergeSort_perm (st.txns.filterMap (contribRowFor st.pms none none none))
      (fun a b => strLeB b.transaction_date a.transaction_date)
    have hr' : r ∈ st.txns.filterMap (contribRowFor st.pms none none none) :=
      hperm.mem_iff.mp hr
    obtain ⟨u, hu, hru⟩ := List.mem_filterMap.mp hr'
    obtain ⟨hrid', hmin', _, _⟩ := contribRowFor_some hru
    have hut : u = t := List.inj_on_of_nodup_map hnd hu ht (hrid' ▸ hrid)
    subst hut
    exact ne_of_strLeB_strLtB (sqlMinStr_le hmin' A hA) hAB

/-- Witness for C9 at the PAYROLL example: filtering by Beta attributes
the transaction to Beta although the unfiltered call resolves it to
Acme. -/
theorem C9_filter_witness :
    (∃ r ∈ get_contributions
        ⟨[⟨1, "2024-05-01", "PAYROLL FROM ACME AND BETA", 100, none, none, none, none,
            none, none⟩], 2,
          [⟨1, "Beta", "BETA"⟩, ⟨2, "Acme", "ACME"⟩]⟩ none none (some "Beta"),
      r.id = 1 ∧ r.person_name = "Beta")
    ∧ (∀ r ∈ get_contributions
        ⟨[⟨1, "2024-05-01", "PAYROLL FROM ACME AND BETA", 100, none, none, none, none,
            none, none⟩], 2,
          [⟨1, "Beta", "BETA"⟩, ⟨2, "Acme", "ACME"⟩]⟩ none none none,
      r.id = 1 → r.person_name ≠ "Beta") :=
  C9_filter_precedes_tiebreak
    ⟨[⟨1, "2024-05-01", "PAYROLL FROM ACME AND BETA", 100, none, none, none, none,
        none, none⟩], 2,
      [⟨1, "Beta", "BETA"⟩, ⟨2, "Acme", "ACME"⟩]⟩
    ⟨1, "2024-05-01", "PAYROLL FROM ACME AND BETA", 100, none, none, none, none, none, none⟩
    "Acme" "Beta" (by decide) (by decide) (by decide) (by decide) (by decide) (by decide)

/-! ## C7: by-person contribution statistics -/

/-- The join rows of one transaction restricted to person `p` are exactly
the pairs over `p`'s matching keywords. -/
theorem personPairs_block (t : StoredTxn) (pms : List PersonMapping) (p : String) :
    ((pms.filter (fun pm => containsCI t.description pm.keyword)).map
        (fun pm => (t, pm))).filter (fun x => x.2.person_name == p)
      = (pms.filter (fun pm =>
          pm.person_name == p && containsCI t.description pm.keyword)).map
          (fun pm => (t, pm)) := by
  rw [List.filter_map]
  congr 1
  rw [List.filter_filter]
  refine List.filter_congr (fun pm _ => ?_)
  simp only [Function.comp_apply]

/-- Unfolding the join over a further transaction. -/
theorem contribPairs_cons (t : StoredTxn) (txns : List StoredTxn) (nid : Nat)
    (pms : List PersonMapping) (sd ed : Option String) :
    contribPairs ⟨t :: txns, nid, pms⟩ sd ed
      = (if decide (0 < t.amount) && inDateRange sd ed t.transaction_date then
          (pms.filter (fun pm => containsCI t.description pm.keyword)).map (fun pm => (t, pm))
         else [])
        ++ contribPairs ⟨txns, nid, pms⟩ sd ed := by
  simp [contribPairs, List.flatMap_cons]

/-- The first component of every join row is a stored transaction. -/
theorem contribPairs_fst_mem :
    ∀ (txns : List StoredTxn) (nid : Nat) (pms : List PersonMapping) (sd ed : Option String)
      (x : StoredTxn × PersonMapping),
      x ∈ contribPairs ⟨txns, nid, pms⟩ sd ed → x.1 ∈ txns := by
  intro txns nid pms sd ed x hx
  simp only [contribPairs, List.mem_flatMap] at hx
  obtain ⟨u, hu, hxu⟩ := hx
  split_ifs at hxu with h
  · obtain ⟨pm, _, hpm⟩ := List.mem_map.mp hxu
    rw [← hpm]
    exact hu
  · exact absurd hxu (List.not_mem_nil x)

/-- Length of a deduplicated block of `k > 0` copies of a fresh element
in front of a list. -/
theorem dedup_replicate_append {α : Type} [DecidableEq α] (a : α) (L : List α)
    (hn : a ∉ L) : ∀ k : Nat, 0 < k →
    (List.replicate k a ++ L).dedup.length = L.dedup.length + 1
  | 1, _ => by
      rw [show List.replicate 1 a ++ L = a :: L from rfl, List.dedup_cons_of_not_mem hn]
      rfl
  | k + 2, _ => by
      have hmem : a ∈ List.replicate (k + 1) a ++ L := by
        apply List.mem_append_left
        exact List.mem_replicate.mpr ⟨Nat.succ_ne_zero k, rfl⟩
      rw [show List.replicate (k + 2) a ++ L = a :: (List.replicate (k + 1) a ++ L) from rfl,
        List.dedup_cons_of_mem hmem]
      exact dedup_replicate_append a L hn (k + 1) (Nat.succ_pos k)

/-- The `SUM(t.amount)` column of the by-person aggregate equals the sum,
over the deposits in range, of the amount multiplied by the number of the
person's keywords matching it (join-row multiplicity). -/
theorem by_person_total_formula :
    ∀ (txns : List StoredTxn) (nid : Nat) (pms : List PersonMapping)
      (sd ed : Option String) (p : String),
      by_person_total ⟨txns, nid, pms⟩ sd ed p
        = ((txns.filter (fun t =>
              decide (0 < t.amount) && inDateRange sd ed t.transaction_date)).map
            (fun t => t.amount
              * ((pms.filter (fun pm =>
                  pm.person_name == p && containsCI t.description pm.keyword)).length : ℚ))).sum
  | [], nid, pms, sd, ed, p => by simp [by_person_total, contribPairs]
  | t :: txns, nid, pms, sd, ed, p => by
      have ih := by_person_total_formula txns nid pms sd ed p
      unfold by_person_total
      rw [contribPairs_cons, List.filter_append, List.map_append, List.sum_append]
      by_cases hc : (decide (0 < t.amount) && inDateRange sd ed t.transaction_date) = true
      · rw [if_pos hc, personPairs_block, List.map_map]
        have hconst : (pms.filter (fun pm =>
            pm.person_name == p && containsCI t.description pm.keyword)).map
              ((fun x : StoredTxn × PersonMapping => x.1.amount) ∘ (fun pm => (t, pm)))
            = List.replicate (pms.filter (fun pm =>
                pm.person_name == p && containsCI t.description pm.keyword)).length t.amount :=
          List.map_const' _ t.amount
        have ih' : (((contribPairs ⟨txns, nid, pms⟩ sd ed).filter
              (fun x => x.2.person_name == p)).map (fun x => x.1.amount)).sum
            = ((txns.filter (fun t =>
                  decide (0 < t.amount) && inDateRange sd ed t.transaction_date)).map
                (fun t => t.amount
                  * ((pms.filter (fun pm =>
                      pm.person_name == p && containsCI t.description pm.keyword)).length
                      : ℚ))).sum := ih
        rw [hconst, List.sum_replicate, List.filter_cons, if_pos hc, List.map_cons,
          List.sum_cons, ih', nsmul_eq_mul, mul_comm]
      · have ih' : (((contribPairs ⟨txns, nid, pms⟩ sd ed).filter
              (fun x => x.2.person_name == p)).map (fun x => x.1.amount)).sum
            = ((txns.filter (fun t =>
                  decide (0 < t.amount) && inDateRange sd ed t.transaction_date)).map
                (fun t => t.amount
                  * ((pms.filter (fun pm =>
                      pm.person_name == p && containsCI t.description pm.keyword)).length
                      : ℚ))).sum := ih
        rw [if_neg hc, List.filter_cons, if_neg hc]
        simpa using ih'


/-- With pairwise distinct ids, the `COUNT(DISTINCT t.id)` column of the
by-person aggregate counts the deposits in range matching at least one of
the person's keywords, each exactly once. -/
theorem by_person_count_formula :
    ∀ (txns : List StoredTxn) (nid : Nat) (pms : List PersonMapping)
      (sd ed : Option String) (p : String),
      (txns.map (fun x => x.id)).Nodup →
      by_person_count ⟨txns, nid, pms⟩ sd ed p
        = (txns.filter (fun t =>
            decide (0 < t.amount) && inDateRange sd ed t.transaction_date
              && pms.any (fun pm =>
                  pm.person_name == p && containsCI t.description pm.keyword))).length
  | [], nid, pms, sd, ed, p, _ => by simp [by_person_count, contribPairs]
  | t :: txns, nid, pms, sd, ed, p, hnd => by
      rw [List.map_cons] at hnd
      have hnd1 : t.id ∉ txns.map (fun x => x.id) := (List.nodup_cons.mp hnd).1
      have hnd2 : (txns.map (fun x => x.id)).Nodup := (List.nodup_cons.mp hnd).2
      have ih := by_person_count_formula txns nid pms sd ed p hnd2
      have ih' : ((((contribPairs ⟨txns, nid, pms⟩ sd ed).filter
            (fun x => x.2.person_name == p)).map (fun x => x.1.id)).dedup).length
          = (txns.filter (fun t =>
              decide (0 < t.amount) && inDateRange sd ed t.transaction_date
                && pms.any (fun pm =>
                    pm.person_name == p && containsCI t.description pm.keyword))).length := ih
      have hrest : t.id ∉ (((contribPairs ⟨txns, nid, pms⟩ sd ed).filter
          (fun x => x.2.person_name == p)).map (fun x => x.1.id)) := by
        intro hmem
        obtain ⟨x, hx, hxid⟩ := List.mem_map.mp hmem
        have hx' : x ∈ contribPairs ⟨txns, nid, pms⟩ sd ed := (List.mem_filter.mp hx).1
        have hxt : x.1 ∈ txns := contribPairs_fst_mem txns nid pms sd ed x hx'
        exact hnd1 (hxid ▸ List.mem_map_of_mem (fun v => v.id) hxt)
      unfold by_person_count
      rw [contribPairs_cons, List.filter_append, List.map_append]
      by_cases hc : (decide (0 < t.amount) && inDateRange sd ed t.transaction_date) = true
      · rw [if_pos hc, personPairs_block, List.map_map]
        have hconst : (pms.filter (fun pm =>
            pm.person_name == p && containsCI t.description pm.keyword)).map
              ((fun x : StoredTxn × PersonMapping => x.1.id) ∘ (fun pm => (t, pm)))
            = List.replicate (pms.filter (fun pm =>
                pm.person_name == p && containsCI t.description pm.keyword)).length t.id :=
          List.map_const' _ t.id
        rw [hconst]
        by_cases hk : (pms.filter (fun pm =>
            pm.person_name == p && containsCI t.description pm.keyword)).length = 0
        · have hanyf : pms.any (fun pm =>
              pm.person_name == p && containsCI t.description pm.keyword) = false := by
            cases hany : pms.any (fun pm =>
                pm.person_name == p && containsCI t.description pm.keyword) with
            | false => rfl
            | true =>
                obtain ⟨pm, hpm, hf⟩ := List.any_eq_true.mp hany
                have hfil := List.filter_eq_nil_iff.mp (List.length_eq_zero.mp hk)
                exact absurd hf (hfil pm hpm)
          rw [hk, List.replicate_zero, List.nil_append, List.filter_cons,
            if_neg (by simp [hanyf])]
          exact ih'
        · have hany : pms.any (fun pm =>
              pm.person_name == p && containsCI t.description pm.keyword) = true := by
            have hne : pms.filter (fun pm =>
                pm.person_name == p && containsCI t.description pm.keyword) ≠ [] := by
              intro hfil
              exact hk (by rw [hfil]; rfl)
            obtain ⟨pm, hpm⟩ := List.exists_mem_of_ne_nil _ hne
            exact List.any_eq_true.mpr
              ⟨pm, (List.mem_filter.mp hpm).1, (List.mem_filter.mp hpm).2⟩
          rw [dedup_replicate_append t.id _ hrest _ (Nat.pos_of_ne_zero hk),
            List.filter_cons, if_pos (by simp [hc, hany]), List.length_cons, ih']
      · have hcf : (decide (0 < t.amount) && inDateRange sd ed t.transaction_date) = false := by
          cases h : (decide (0 < t.amount) && inDateRange sd ed t.transaction_date) with
          | false => rfl
          | true => exact absurd h hc
        rw [if_neg hc, List.filter_nil, List.map_nil, List.nil_append, List.filter_cons,
          if_neg (by rw [hcf]; simp)]
        exact ih'

/-- C7 counterexample: one deposit `"PAYROLL"` of 100 matching two
keywords of the same person Alice gives `SUM(t.amount) = 200` — the
amount is counted once per matching keyword, not once per transaction —
while the once-per-transaction total required by the claim is 100; the
`COUNT(DISTINCT t.id)` column is 1. -/
theorem C7_by_person_counterexample :
    by_person_total
        ⟨[⟨1, "2024-05-01", "PAYROLL", 100, none, none, none, none, none, none⟩], 2,
          [⟨1, "Alice", "PAY"⟩, ⟨2, "Alice", "ROLL"⟩]⟩ none none "Alice" = 200
    ∧ oncePerTxnTotal
        ⟨[⟨1, "2024-05-01", "PAYROLL", 100, none, none, none, none, none, none⟩], 2,
          [⟨1, "Alice", "PAY"⟩, ⟨2, "Alice", "ROLL"⟩]⟩ none none "Alice" = 100
    ∧ (200 : ℚ) ≠ 100
    ∧ by_person_count
        ⟨[⟨1, "2024-05-01", "PAYROLL", 100, none, none, none, none, none, none⟩], 2,
          [⟨1, "Alice", "PAY"⟩, ⟨2, "Alice", "ROLL"⟩]⟩ none none "Alice" = 1 := by
  have hpairs : ((contribPairs
      ⟨[⟨1, "2024-05-01", "PAYROLL", 100, none, none, none, none, none, none⟩], 2,
        [⟨1, "Alice", "PAY"⟩, ⟨2, "Alice", "ROLL"⟩]⟩ none none).filter
      (fun x => x.2.person_name == "Alice")).map (fun x => x.1.amount) = [100, 100] := by
    decide
  have honce : (depositsMatching
      ⟨[⟨1, "2024-05-01", "PAYROLL", 100, none, none, none, none, none, none⟩], 2,
        [⟨1, "Alice", "PAY"⟩, ⟨2, "Alice", "ROLL"⟩]⟩ none none "Alice").map
      (fun t => t.amount) = [100] := by
    decide
  refine ⟨?_, ?_, by norm_num, by decide⟩
  · unfold by_person_total
    rw [hpairs]
    norm_num [List.sum_cons, List.sum_nil]
  · unfold oncePerTxnTotal
    rw [honce]
    norm_num [List.sum_cons, List.sum_nil]

/-- C7 (amended): in the by-person aggregate of
`get_contribution_statistics`, the count column does count each matching
deposit exactly once (`COUNT(DISTINCT t.id)`), and a deposit matching
several persons contributes to each of their rows; but the total column
sums the amount once per matching (person, keyword) join row, i.e.
`total(p) = Σ amount·(number of p's keywords matching)`, so it
over-counts a deposit matched by several keywords of the same person. -/
theorem C7_by_person_amended :
    (∀ (st : Store) (sd ed : Option String) (p : String),
      by_person_total st sd ed p
        = ((st.txns.filter (fun t =>
              decide (0 < t.amount) && inDateRange sd ed t.transaction_date)).map
            (fun t => t.amount * (matchMultiplicity st p t : ℚ))).sum)
    ∧ (∀ (st : Store) (sd ed : Option String) (p : String),
      (st.txns.map (fun x => x.id)).Nodup →
      by_person_count st sd ed p = (depositsMatching st sd ed p).length) := by
  constructor
  · intro st sd ed p
    cases st with
    | mk txns nid pms => exact by_person_total_formula txns nid pms sd ed p
  · intro st sd ed p hnd
    cases st with
    | mk txns nid pms => exact by_person_count_formula txns nid pms sd ed p hnd

/-- Witness for C7 at the two-keyword example: Alice's count is the
number of matching deposits. -/
theorem C7_by_person_witness :
    by_person_count
        ⟨[⟨1, "2024-05-01", "PAYROLL", 100, none, none, none, none, none, none⟩], 2,
          [⟨1, "Alice", "PAY"⟩, ⟨2, "Alice", "ROLL"⟩]⟩ none none "Alice"
      = (depositsMatching
          ⟨[⟨1, "2024-05-01", "PAYROLL", 100, none, none, none, none, none, none⟩], 2,
            [⟨1, "Alice", "PAY"⟩, ⟨2, "Alice", "ROLL"⟩]⟩ none none "Alice").length :=
  C7_by_person_amended.2
    ⟨[⟨1, "2024-05-01", "PAYROLL", 100, none, none, none, none, none, none⟩], 2,
      [⟨1, "Alice", "PAY"⟩, ⟨2, "Alice", "ROLL"⟩]⟩ none none "Alice" (by decide)
